import Mathlib

/-!
# Verification of the virtual-network demand allocation engine

Shallow embedding of `process_demand.py` (class `NetworkProcessor`):
a capacitated substrate network given by an adjacency matrix, virtual-network
demands (a node path plus per-link bandwidth requirements), a brute-force
enumerator of injective node mappings, a greedy allocator that consumes
residual capacity, and acceptance-ratio bookkeeping.

Matrices are `List (List Int)` (numpy integer matrices in the source);
entries are read with a default of `0` out of range, and theorems that need
well-formed shapes carry explicit squareness hypotheses.  Python dicts become
insertion-ordered association lists.  The acceptance ratio is a rational.
-/

namespace VNAlloc

/-- A virtual-network demand: the dict `{'id', 'path', 'bandwidth'}` built by
`NetworkProcessor.add_demand`. -/
structure Demand where
  id : Nat
  path : List Nat
  bandwidth : List Int
deriving Repr, DecidableEq

/-- The mutable state of a `NetworkProcessor` instance: the residual substrate
matrix (`substrate_network`), the baseline copy (`original_substrate`), the
demand list and the accepted/rejected/allocations bookkeeping. -/
structure Processor where
  substrate_network : List (List Int)
  original_substrate : List (List Int)
  demands : List Demand
  accepted_demands : List Demand
  rejected_demands : List Demand
  allocations : List (Nat × List Nat)
deriving Repr, DecidableEq

/-- `NetworkProcessor.__init__`: empty state (no substrate set yet, modelled by
the empty matrix). -/
def Processor.init : Processor :=
  ⟨[], [], [], [], [], []⟩

/-- Matrix entry read `M[i, j]`, defaulting to `0` out of range. -/
def getEntry (M : List (List Int)) (i j : Nat) : Int :=
  (M.getD i []).getD j 0

/-- Matrix entry write `M[i, j] = x` (a no-op out of range; numpy would raise,
and all theorems about writes stay within in-range indices). -/
def setEntry (M : List (List Int)) (i j : Nat) (x : Int) : List (List Int) :=
  M.set i ((M.getD i []).set j x)

/-- Insertion-ordered dict update `d[k] = v`: replace in place if the key is
present, else append. -/
def dictInsert (k : Nat) (v : List Nat) : List (Nat × List Nat) → List (Nat × List Nat)
  | [] => [(k, v)]
  | (k', v') :: t => if k' = k then (k, v) :: t else (k', v') :: dictInsert k v t

/-- `NetworkProcessor.set_substrate_network`: store the matrix as both the
working (residual) copy and the baseline copy.  The source performs no
validation of the input. -/
def set_substrate_network (p : Processor) (m : List (List Int)) : Processor :=
  { p with substrate_network := m, original_substrate := m }

/-- `NetworkProcessor.add_demand`: append a demand record to the list. -/
def add_demand (p : Processor) (i : Nat) (path : List Nat) (bw : List Int) : Processor :=
  { p with demands := p.demands ++ [⟨i, path, bw⟩] }

/-- `NetworkProcessor.reset`: clear the demand list, the accepted and rejected
lists and the allocations dict, and restore the working substrate from the
baseline copy. -/
def reset (p : Processor) : Processor :=
  { p with demands := [], accepted_demands := [], rejected_demands := [],
           allocations := [],
           substrate_network := p.original_substrate }

/-- All length-`k` draws without repetition from `avail`, each draw in the
order the elements are picked, blocks in the order of `avail` — the order
`itertools.permutations` emits for a sorted input. -/
def kperms : List Nat → Nat → List (List Nat)
  | _, 0 => [[]]
  | avail, k + 1 =>
      avail.flatMap fun x => (kperms (avail.erase x) k).map fun p => x :: p

/-- The bandwidth feasibility check shared by `find_all_possible_allocations`
and the first loop of `allocate_demand`: every consecutive link `i` of the
demand path must have `substrate[mapping[i]-1, mapping[i+1]-1] ≥ bandwidth[i]`
in the current working matrix. -/
def validMapping (M : List (List Int)) (d : Demand) (mapping : List Nat) : Bool :=
  (List.range (d.path.length - 1)).all fun i =>
    decide (d.bandwidth.getD i 0 ≤
      getEntry M (mapping.getD i 0 - 1) (mapping.getD (i + 1) 0 - 1))

/-- `NetworkProcessor.find_all_possible_allocations`: all permutations of
`1..N` taken `len(path)` at a time, filtered by the bandwidth check against
the current working (residual) matrix. -/
def find_all_possible_allocations (p : Processor) (d : Demand) : List (List Nat) :=
  (kperms (List.range' 1 p.substrate_network.length) d.path.length).filter
    (validMapping p.substrate_network d)

/-- The consecutive substrate arcs of a mapping with their requirements:
`((mapping[i]-1, mapping[i+1]-1), bandwidth[i])` for `i < len(path)-1`. -/
def demandArcs (d : Demand) (mapping : List Nat) : List ((Nat × Nat) × Int) :=
  (List.range (d.path.length - 1)).map fun i =>
    ((mapping.getD i 0 - 1, mapping.getD (i + 1) 0 - 1), d.bandwidth.getD i 0)

/-- The mutation loop of `allocate_demand`: decrement each arc's entry in
sequence. -/
def consumeArcs (M : List (List Int)) : List ((Nat × Nat) × Int) → List (List Int)
  | [] => M
  | ((u, v), b) :: t => consumeArcs (setEntry M u v (getEntry M u v - b)) t

/-- `NetworkProcessor.allocate_demand`: re-check every arc against the current
working matrix; on failure return `false` without mutating anything, on
success decrement every arc and record `allocations[demand.id] = mapping`. -/
def allocate_demand (p : Processor) (d : Demand) (mapping : List Nat) :
    Processor × Bool :=
  if validMapping p.substrate_network d mapping then
    ({ p with
        substrate_network := consumeArcs p.substrate_network (demandArcs d mapping),
        allocations := dictInsert d.id mapping p.allocations }, true)
  else (p, false)

/-- The per-demand body of the loop in `process_all_demands`: enumerate, try
the first candidate, append the demand to `accepted_demands` or
`rejected_demands`. -/
def processDemand (p : Processor) (d : Demand) : Processor :=
  match find_all_possible_allocations p d with
  | [] => { p with rejected_demands := p.rejected_demands ++ [d] }
  | alloc :: _ =>
      let r := allocate_demand p d alloc
      if r.2 then { r.1 with accepted_demands := r.1.accepted_demands ++ [d] }
      else { r.1 with rejected_demands := r.1.rejected_demands ++ [d] }

/-- Sort key of the scheduler: `sum(d['bandwidth'])`. -/
def totalBandwidth (d : Demand) : Int := d.bandwidth.sum

/-- The scheduler's ordering: Python's stable in-place `list.sort` with key
`sum(bandwidth)`, i.e. a stable merge sort by non-decreasing total. -/
def sortDemands (l : List Demand) : List Demand :=
  l.mergeSort fun a b => decide (totalBandwidth a ≤ totalBandwidth b)

/-- `NetworkProcessor.get_acceptance_ratio`:
`|accepted| / (|accepted| + |rejected|)`, and `0.0` before any processing. -/
def get_acceptance_ratio (p : Processor) : ℚ :=
  if p.accepted_demands.length + p.rejected_demands.length = 0 then 0
  else (p.accepted_demands.length : ℚ) /
    ((p.accepted_demands.length + p.rejected_demands.length : Nat) : ℚ)

/-- `NetworkProcessor.process_all_demands`: sort the stored demand list in
place by total bandwidth, process each demand once in that order, and return
the acceptance ratio. -/
def process_all_demands (p : Processor) : Processor × ℚ :=
  let sorted := sortDemands p.demands
  let p1 := sorted.foldl processDemand { p with demands := sorted }
  (p1, get_acceptance_ratio p1)

/-- The read-only snapshot returned by `NetworkProcessor.get_results`
(note: it does not include the demand list). -/
structure Results where
  accepted_demands : List Demand
  rejected_demands : List Demand
  acceptance_ratio : ℚ
  allocations : List (Nat × List Nat)
  remaining_substrate : List (List Int)
deriving Repr, DecidableEq

/-- `NetworkProcessor.get_results`. -/
def get_results (p : Processor) : Results :=
  ⟨p.accepted_demands, p.rejected_demands, get_acceptance_ratio p,
   p.allocations, p.substrate_network⟩

/-! ## The concrete validation scenario of `main.py` / spec §8 -/

/-- The 5-node substrate of the validation example: arcs 1→2:12, 2→3:10,
2→4:7, 3→5:8, 4→5:6, all other entries 0. -/
def exampleSubstrate : List (List Int) :=
  [[0, 12, 0, 0, 0],
   [0, 0, 10, 7, 0],
   [0, 0, 0, 0, 8],
   [0, 0, 0, 0, 6],
   [0, 0, 0, 0, 0]]

/-- Demand A: four virtual nodes, bandwidth `[8, 8, 5]` (id 1). -/
def demandA : Demand := ⟨1, [1, 2, 3, 4], [8, 8, 5]⟩

/-- Demand B: four virtual nodes, bandwidth `[4, 6, 2]` (id 2). -/
def demandB : Demand := ⟨2, [1, 2, 3, 4], [4, 6, 2]⟩

/-- The processor of the validation example after setup: substrate set, then
demand A added, then demand B added. -/
def exampleProcessor : Processor :=
  add_demand (add_demand (set_substrate_network Processor.init exampleSubstrate)
    1 [1, 2, 3, 4] [8, 8, 5]) 2 [1, 2, 3, 4] [4, 6, 2]

example : exampleProcessor.demands = [demandA, demandB] := by decide

/-- The residual matrix after demand B's allocation is committed:
1→2:8, 2→3:4, 3→5:6, with 2→4:7 and 4→5:6 untouched. -/
def exampleResidual : List (List Int) :=
  [[0, 8, 0, 0, 0],
   [0, 0, 4, 7, 0],
   [0, 0, 0, 0, 6],
   [0, 0, 0, 0, 6],
   [0, 0, 0, 0, 0]]

/-- In the validation example, the stable sort by total bandwidth puts B
(total 12) before A (total 21). -/
lemma sortDemands_example : sortDemands exampleProcessor.demands = [demandB, demandA] := by
  have h : exampleProcessor.demands = [demandA, demandB] := by decide
  rw [h]
  simp [sortDemands, List.mergeSort, demandA, demandB, totalBandwidth]

/-- The final state of the run of `process_all_demands` on the validation
example, computed once and for all. -/
lemma example_run_state :
    (process_all_demands exampleProcessor).1 =
      ⟨exampleResidual, exampleSubstrate, [demandB, demandA], [demandB],
        [demandA], [(2, [1, 2, 3, 5])]⟩ := by
  unfold process_all_demands
  rw [sortDemands_example]
  decide

/-- C1: in the concrete validation scenario, the totals are A=21 > B=12, the
scheduler processes B first, B is accepted with mapping `[1,2,3,5]`, the
residual arcs become 1→2:8, 2→3:4, 3→5:6, A is rejected against that residual
state, and the returned acceptance ratio is `0.5`. -/
theorem c1_concrete_scenario :
    totalBandwidth demandA = 21 ∧ totalBandwidth demandB = 12 ∧
    sortDemands exampleProcessor.demands = [demandB, demandA] ∧
    (process_all_demands exampleProcessor).1.accepted_demands = [demandB] ∧
    (process_all_demands exampleProcessor).1.allocations = [(2, [1, 2, 3, 5])] ∧
    (process_all_demands exampleProcessor).1.substrate_network = exampleResidual ∧
    (process_all_demands exampleProcessor).1.rejected_demands = [demandA] ∧
    (process_all_demands exampleProcessor).2 = 1 / 2 := by
  have hr : (process_all_demands exampleProcessor).2 =
      get_acceptance_ratio (process_all_demands exampleProcessor).1 := rfl
  refine ⟨by decide, by decide, sortDemands_example, ?_, ?_, ?_, ?_, ?_⟩
  · rw [example_run_state]
  · rw [example_run_state]
  · rw [example_run_state]
  · rw [example_run_state]
  · rw [hr, example_run_state]
    norm_num [get_acceptance_ratio]

/-! ## C2: what `reset` actually does -/

/-- C2 counterexample: at the concrete example state (which holds two
demands), `reset` does NOT leave the demand list as it was — it empties it —
so the claimed conjunction fails. -/
theorem c2_counterexample :
    ¬ ((reset exampleProcessor).substrate_network =
          exampleProcessor.original_substrate ∧
       (reset exampleProcessor).accepted_demands = [] ∧
       (reset exampleProcessor).rejected_demands = [] ∧
       (reset exampleProcessor).allocations = [] ∧
       (reset exampleProcessor).demands = exampleProcessor.demands) := by
  decide

/-- C2 (amended): `reset` restores the residual substrate from the baseline
and empties accepted, rejected and allocations — but it also empties the
demand list rather than retaining it. -/
theorem c2_reset_clears_everything (p : Processor) :
    reset p = ⟨p.original_substrate, p.original_substrate, [], [], [], []⟩ :=
  rfl

/-- C2 witness: the amended description evaluated at the concrete example
state. -/
theorem c2_reset_clears_everything_witness :
    reset exampleProcessor =
      ⟨exampleSubstrate, exampleSubstrate, [], [], [], []⟩ := by
  rw [c2_reset_clears_everything exampleProcessor]
  decide

/-! ## C3: a re-run after `reset` -/

/-- After `reset`, the demand list is empty, so a processing pass does
nothing: it returns the reset state unchanged and ratio `0`. -/
lemma process_after_reset (p : Processor) :
    process_all_demands (reset p) = (reset p, 0) := by
  have h : sortDemands (reset p).demands = [] := by
    simp [reset, sortDemands, List.mergeSort]
  simp only [process_all_demands, h]
  rfl

/-- C3 counterexample: on the concrete example, the first run returns ratio
`1/2` and a non-empty allocations map, but the re-run after `reset` returns
ratio `0` and an empty allocations map, so the run–reset–run sequence is not
idempotent. -/
theorem c3_counterexample :
    ¬ ((process_all_demands (reset (process_all_demands exampleProcessor).1)).1.allocations =
          (process_all_demands exampleProcessor).1.allocations ∧
       (process_all_demands (reset (process_all_demands exampleProcessor).1)).2 =
          (process_all_demands exampleProcessor).2) := by
  rintro ⟨h1, -⟩
  rw [process_after_reset, example_run_state] at h1
  exact absurd h1 (by decide)

/-- C3 (amended): because `reset` clears the demand list, re-running
`process_all_demands` after a `reset` always yields an empty allocations map
and acceptance ratio `0`, regardless of the first run's results. -/
theorem c3_rerun_after_reset_is_empty (p : Processor) :
    (process_all_demands (reset (process_all_demands p).1)).1.allocations = [] ∧
    (process_all_demands (reset (process_all_demands p).1)).2 = 0 := by
  rw [process_after_reset]
  exact ⟨rfl, rfl⟩

/-- C3 witness: the amended statement evaluated at the concrete example
state. -/
theorem c3_rerun_after_reset_is_empty_witness :
    (process_all_demands (reset (process_all_demands exampleProcessor).1)).1.allocations = [] ∧
    (process_all_demands (reset (process_all_demands exampleProcessor).1)).2 = 0 :=
  c3_rerun_after_reset_is_empty exampleProcessor

/-! ## C8: `set_substrate_network` performs no validation -/

/-- C8 counterexample: for the non-square matrix `[[-1, 2]]` (which also
contains a negative entry), the call does store substrate state — the claimed
fail-fast rejection does not happen. -/
theorem c8_counterexample :
    ¬ ((set_substrate_network Processor.init [[-1, 2]]).substrate_network =
          Processor.init.substrate_network ∧
       (set_substrate_network Processor.init [[-1, 2]]).original_substrate =
          Processor.init.original_substrate) := by
  decide

/-- C8 (amended): `set_substrate_network` accepts every input matrix without
any validation, storing it as both the baseline and the residual copy and
leaving all other fields unchanged; it never fails. -/
theorem c8_set_substrate_no_validation (p : Processor) (m : List (List Int)) :
    set_substrate_network p m =
      ⟨m, m, p.demands, p.accepted_demands, p.rejected_demands, p.allocations⟩ :=
  rfl

/-! ## The permutation enumerator: membership and order -/

/-- Membership in `kperms`: when the pool has no duplicates, the draws of
length `k` are exactly the duplicate-free length-`k` lists over the pool. -/
lemma mem_kperms : ∀ (k : Nat) (avail : List Nat), avail.Nodup → ∀ m : List Nat,
    (m ∈ kperms avail k ↔ m.length = k ∧ m.Nodup ∧ ∀ x ∈ m, x ∈ avail)
  | 0, avail, _, m => by
      simp only [kperms, List.mem_singleton]
      constructor
      · rintro rfl; simp
      · rintro ⟨h, -, -⟩; exact List.eq_nil_of_length_eq_zero h
  | k + 1, avail, hnd, m => by
      simp only [kperms, List.mem_flatMap, List.mem_map]
      constructor
      · rintro ⟨x, hx, q, hq, rfl⟩
        obtain ⟨hl, hqnd, hsub⟩ :=
          (mem_kperms k (avail.erase x) (hnd.erase x) q).mp hq
        have hxq : x ∉ q := fun hmem =>
          (((hnd.mem_erase_iff).mp (hsub x hmem)).1) rfl
        refine ⟨by simp [hl], List.nodup_cons.mpr ⟨hxq, hqnd⟩, ?_⟩
        intro y hy
        rcases List.mem_cons.mp hy with rfl | hy
        · exact hx
        · exact List.erase_subset _ _ (hsub y hy)
      · rintro ⟨hl, hmnd, hsub⟩
        rcases m with _ | ⟨x, q⟩
        · simp at hl
        · obtain ⟨hxq, hqnd⟩ := List.nodup_cons.mp hmnd
          refine ⟨x, hsub x (List.mem_cons_self _ _), q, ?_, rfl⟩
          refine (mem_kperms k (avail.erase x) (hnd.erase x) q).mpr
            ⟨by simpa using hl, hqnd, ?_⟩
          intro y hy
          exact (hnd.mem_erase_iff).mpr
            ⟨fun h => hxq (h ▸ hy), hsub y (List.mem_cons_of_mem _ hy)⟩

/-- `kperms` lists its draws in strictly increasing lexicographic order when
the pool is listed in strictly increasing order. -/
lemma kperms_pairwise_lex : ∀ (k : Nat) (avail : List Nat),
    avail.Pairwise (· < ·) →
    (kperms avail k).Pairwise (List.Lex (· < ·))
  | 0, avail, _ => by simp [kperms]
  | k + 1, avail, hsort => by
      simp only [kperms]
      rw [List.pairwise_flatMap]
      constructor
      · intro x _
        rw [List.pairwise_map]
        exact (kperms_pairwise_lex k (avail.erase x)
          (hsort.sublist (List.erase_sublist x avail))).imp
          fun h => List.Lex.cons h
      · refine hsort.imp_of_mem ?_
        intro x y _ _ hxy
        intro a ha b hb
        obtain ⟨q, -, rfl⟩ := List.mem_map.mp ha
        obtain ⟨r, -, rfl⟩ := List.mem_map.mp hb
        exact List.Lex.rel hxy

/-- The feasibility check, unfolded: every link `i` of the demand satisfies
its bandwidth requirement in the given matrix. -/
lemma validMapping_iff (M : List (List Int)) (d : Demand) (m : List Nat) :
    validMapping M d m = true ↔
      ∀ i < d.path.length - 1,
        d.bandwidth.getD i 0 ≤
          getEntry M (m.getD i 0 - 1) (m.getD (i + 1) 0 - 1) := by
  simp [validMapping, List.all_eq_true, List.mem_range]

/-- C5: `find_all_possible_allocations` returns exactly the duplicate-free
sequences of `len(path)` substrate labels drawn from `1..N` whose every
consecutive arc meets its bandwidth requirement against the current residual
matrix; the list is in strictly increasing lexicographic order; and whenever
it is non-empty, the scheduler hands its first element to the allocator. -/
theorem c5_enumerator (p : Processor) (d : Demand) :
    (∀ m : List Nat,
       m ∈ find_all_possible_allocations p d ↔
         m.length = d.path.length ∧ m.Nodup ∧
         (∀ x ∈ m, 1 ≤ x ∧ x ≤ p.substrate_network.length) ∧
         ∀ i < d.path.length - 1,
           d.bandwidth.getD i 0 ≤
             getEntry p.substrate_network (m.getD i 0 - 1) (m.getD (i + 1) 0 - 1)) ∧
    (find_all_possible_allocations p d).Pairwise (List.Lex (· < ·)) ∧
    (∀ (m : List Nat) (rest : List (List Nat)),
       find_all_possible_allocations p d = m :: rest →
       processDemand p d =
         (if (allocate_demand p d m).2 then
            { (allocate_demand p d m).1 with
                accepted_demands := (allocate_demand p d m).1.accepted_demands ++ [d] }
          else
            { (allocate_demand p d m).1 with
                rejected_demands := (allocate_demand p d m).1.rejected_demands ++ [d] })) := by
  refine ⟨?_, ?_, ?_⟩
  · intro m
    unfold find_all_possible_allocations
    rw [List.mem_filter,
      mem_kperms _ _ (List.nodup_range' _ _ _) m, validMapping_iff]
    constructor
    · rintro ⟨⟨h1, h2, h3⟩, h4⟩
      refine ⟨h1, h2, ?_, h4⟩
      intro x hx
      have := List.mem_range'_1.mp (h3 x hx)
      omega
    · rintro ⟨h1, h2, h3, h4⟩
      refine ⟨⟨h1, h2, ?_⟩, h4⟩
      intro x hx
      have := h3 x hx
      rw [List.mem_range'_1]
      omega
  · exact (kperms_pairwise_lex _ _ (List.pairwise_lt_range' _ _ _)).sublist
      (List.filter_sublist _)
  · intro m rest h
    simp only [processDemand, h]

/-- C5 witness: on the fresh example substrate, `[1,2,3,5]` is recognised as
a feasible mapping for demand B through the characterisation. -/
theorem c5_enumerator_witness :
    [1, 2, 3, 5] ∈ find_all_possible_allocations exampleProcessor demandB :=
  ((c5_enumerator exampleProcessor demandB).1 [1, 2, 3, 5]).mpr (by decide)

/-! ## The scheduler's ordering -/

/-- The scheduler's comparison is transitive. -/
lemma leBW_trans : ∀ a b c : Demand,
    decide (totalBandwidth a ≤ totalBandwidth b) = true →
    decide (totalBandwidth b ≤ totalBandwidth c) = true →
    decide (totalBandwidth a ≤ totalBandwidth c) = true := by
  intro a b c
  simp only [decide_eq_true_eq]
  omega

/-- The scheduler's comparison is total. -/
lemma leBW_total : ∀ a b : Demand,
    (decide (totalBandwidth a ≤ totalBandwidth b) ||
     decide (totalBandwidth b ≤ totalBandwidth a)) = true := by
  intro a b
  simp only [Bool.or_eq_true, decide_eq_true_eq]
  omega

/-- The sorted demand list is non-decreasing in total bandwidth. -/
lemma sortDemands_sorted (l : List Demand) :
    (sortDemands l).Pairwise fun a b => totalBandwidth a ≤ totalBandwidth b :=
  (List.sorted_mergeSort leBW_trans leBW_total l).imp fun h =>
    of_decide_eq_true h

/-- The sorted demand list is a permutation of the input. -/
lemma sortDemands_perm (l : List Demand) : (sortDemands l).Perm l :=
  List.mergeSort_perm l _

/-- Stability: the demands of any fixed total bandwidth appear in the sorted
list in their original relative order. -/
lemma sortDemands_filter_key (l : List Demand) (t : Int) :
    (sortDemands l).filter (fun d => decide (totalBandwidth d = t)) =
      l.filter (fun d => decide (totalBandwidth d = t)) := by
  have hpw : (l.filter fun d => decide (totalBandwidth d = t)).Pairwise
      (fun a b => decide (totalBandwidth a ≤ totalBandwidth b) = true) := by
    refine List.pairwise_of_forall_mem_list ?_
    intro a ha b hb
    have ha' : totalBandwidth a = t := by simpa using (List.mem_filter.mp ha).2
    have hb' : totalBandwidth b = t := by simpa using (List.mem_filter.mp hb).2
    simp only [decide_eq_true_eq]
    omega
  have h1 : (l.filter fun d => decide (totalBandwidth d = t)).Sublist
      (sortDemands l) :=
    List.sublist_mergeSort leBW_trans leBW_total hpw (List.filter_sublist l)
  have h2 : (((l.filter fun d => decide (totalBandwidth d = t)).filter
        fun d => decide (totalBandwidth d = t)).Sublist
      ((sortDemands l).filter fun d => decide (totalBandwidth d = t))) :=
    h1.filter _
  have h3 : ((l.filter fun d => decide (totalBandwidth d = t)).filter
        fun d => decide (totalBandwidth d = t)) =
      l.filter fun d => decide (totalBandwidth d = t) :=
    List.filter_eq_self.mpr fun a ha => (List.mem_filter.mp ha).2
  rw [h3] at h2
  have hlen : ((sortDemands l).filter fun d => decide (totalBandwidth d = t)).length =
      (l.filter fun d => decide (totalBandwidth d = t)).length :=
    ((sortDemands_perm l).filter _).length_eq
  exact (h2.eq_of_length hlen.symm).symm

/-- `processDemand` never touches the demand list or the baseline copy, and
appends the processed demand to exactly one of accepted/rejected. -/
lemma processDemand_fields (p : Processor) (d : Demand) :
    (processDemand p d).demands = p.demands ∧
    (processDemand p d).original_substrate = p.original_substrate ∧
    (processDemand p d).accepted_demands.length +
        (processDemand p d).rejected_demands.length =
      p.accepted_demands.length + p.rejected_demands.length + 1 := by
  unfold processDemand
  rcases h : find_all_possible_allocations p d with _ | ⟨a, t⟩
  · refine ⟨rfl, rfl, ?_⟩
    simp only [List.length_append, List.length_cons, List.length_nil]
    omega
  · simp only [allocate_demand]
    split
    all_goals refine ⟨rfl, rfl, ?_⟩
    all_goals simp
    all_goals try omega

/-- The fold of `processDemand` over a demand list: demand list and baseline
unchanged, and accepted+rejected grows by exactly the number processed. -/
lemma foldl_processDemand_fields : ∀ (l : List Demand) (p : Processor),
    (l.foldl processDemand p).demands = p.demands ∧
    (l.foldl processDemand p).original_substrate = p.original_substrate ∧
    (l.foldl processDemand p).accepted_demands.length +
        (l.foldl processDemand p).rejected_demands.length =
      p.accepted_demands.length + p.rejected_demands.length + l.length
  | [], p => ⟨rfl, rfl, by simp⟩
  | d :: t, p => by
      obtain ⟨h1, h2, h3⟩ := foldl_processDemand_fields t (processDemand p d)
      obtain ⟨g1, g2, g3⟩ := processDemand_fields p d
      rw [List.foldl_cons]
      refine ⟨by rw [h1, g1], by rw [h2, g2], ?_⟩
      rw [h3]
      simp only [List.length_cons]
      omega

/-- After a processing pass, the stored demand list is the sorted list. -/
lemma process_demands_field (p : Processor) :
    (process_all_demands p).1.demands = sortDemands p.demands := by
  unfold process_all_demands
  exact (foldl_processDemand_fields (sortDemands p.demands) _).1

/-- A processing pass appends exactly one terminal record per stored demand:
accepted+rejected grows by the demand count. -/
lemma process_counts (p : Processor) :
    (process_all_demands p).1.accepted_demands.length +
        (process_all_demands p).1.rejected_demands.length =
      p.accepted_demands.length + p.rejected_demands.length +
        p.demands.length := by
  unfold process_all_demands
  have h := (foldl_processDemand_fields (sortDemands p.demands)
    { p with demands := sortDemands p.demands }).2.2
  simp only [sortDemands, List.length_mergeSort] at h
  exact h

/-- C6: the scheduler processes demands in non-decreasing order of total
requested bandwidth — the processed (and stored) order is a sorted
permutation of the demand list, and demands of equal total keep their
original relative order (stable sort). -/
theorem c6_processing_order (p : Processor) :
    (process_all_demands p).1.demands = sortDemands p.demands ∧
    ((sortDemands p.demands).Pairwise fun a b =>
      totalBandwidth a ≤ totalBandwidth b) ∧
    (sortDemands p.demands).Perm p.demands ∧
    ∀ t : Int,
      (sortDemands p.demands).filter (fun d => decide (totalBandwidth d = t)) =
        p.demands.filter (fun d => decide (totalBandwidth d = t)) := by
  refine ⟨?_, sortDemands_sorted p.demands, sortDemands_perm p.demands,
    fun t => sortDemands_filter_key p.demands t⟩
  exact process_demands_field p

/-- C9: `process_all_demands` sorts the stored demand list in place — after a
pass the stored list is the sorted list, and on the concrete example it no
longer equals the insertion order. -/
theorem c9_demand_list_mutated :
    (∀ p : Processor,
      (process_all_demands p).1.demands = sortDemands p.demands) ∧
    (process_all_demands exampleProcessor).1.demands ≠
      exampleProcessor.demands := by
  refine ⟨process_demands_field, ?_⟩
  rw [example_run_state]
  decide

/-- C10: without an intervening `reset`, a second pass re-processes every
demand and appends fresh terminal records, so accepted+rejected reaches twice
the demand count and the acceptance-ratio denominator double-counts each
demand. -/
theorem c10_double_counting (p : Processor)
    (hacc : p.accepted_demands = []) (hrej : p.rejected_demands = []) :
    ((process_all_demands (process_all_demands p).1).1.accepted_demands.length +
       (process_all_demands (process_all_demands p).1).1.rejected_demands.length =
      2 * p.demands.length) ∧
    (p.demands ≠ [] →
      get_acceptance_ratio (process_all_demands (process_all_demands p).1).1 =
        ((process_all_demands (process_all_demands p).1).1.accepted_demands.length : ℚ) /
          (2 * p.demands.length : ℚ)) := by
  have hn1 := process_counts p
  rw [hacc, hrej] at hn1
  simp only [List.length_nil, Nat.zero_add] at hn1
  have hn2 := process_counts (process_all_demands p).1
  rw [process_demands_field] at hn2
  simp only [sortDemands, List.length_mergeSort] at hn2
  constructor
  · omega
  · intro hne
    have hlen : p.demands.length ≠ 0 :=
      Nat.pos_iff_ne_zero.mp (List.length_pos.mpr hne)
    unfold get_acceptance_ratio
    rw [if_neg (by omega)]
    have h2n : (process_all_demands (process_all_demands p).1).1.accepted_demands.length +
        (process_all_demands (process_all_demands p).1).1.rejected_demands.length =
        2 * p.demands.length := by omega
    rw [h2n]
    push_cast
    ring

/-- C10 witness: on the concrete example (two demands, fresh state), two
consecutive passes leave 4 terminal records and denominator 4. -/
theorem c10_double_counting_witness :
    exampleProcessor.accepted_demands = [] ∧
    exampleProcessor.rejected_demands = [] ∧
    ((process_all_demands (process_all_demands exampleProcessor).1).1.accepted_demands.length +
       (process_all_demands (process_all_demands exampleProcessor).1).1.rejected_demands.length =
      2 * exampleProcessor.demands.length) ∧
    (exampleProcessor.demands ≠ [] →
      get_acceptance_ratio (process_all_demands (process_all_demands exampleProcessor).1).1 =
        ((process_all_demands (process_all_demands exampleProcessor).1).1.accepted_demands.length : ℚ) /
          (2 * exampleProcessor.demands.length : ℚ)) :=
  ⟨rfl, rfl, c10_double_counting exampleProcessor rfl rfl⟩

/-! ## Matrix updates and the consumption loop -/

lemma getD_set_self (l : List α) (i : Nat) (a d : α) (h : i < l.length) :
    (l.set i a).getD i d = a := by
  rw [List.getD_eq_getElem?_getD, List.getElem?_set_self h, Option.getD_some]

lemma getD_set_ne (l : List α) {i u : Nat} (a d : α) (h : i ≠ u) :
    (l.set i a).getD u d = l.getD u d := by
  rw [List.getD_eq_getElem?_getD, List.getElem?_set_ne h,
    ← List.getD_eq_getElem?_getD]

/-- `setEntry` preserves the number of rows. -/
lemma length_setEntry (M : List (List Int)) (i j : Nat) (x : Int) :
    (setEntry M i j x).length = M.length :=
  List.length_set M i _

/-- `setEntry` preserves the length of every row. -/
lemma rowLen_setEntry (M : List (List Int)) (i j : Nat) (x : Int) (u : Nat) :
    ((setEntry M i j x).getD u []).length = (M.getD u []).length := by
  unfold setEntry
  rcases eq_or_ne i u with rfl | h
  · by_cases hl : i < M.length
    · rw [getD_set_self _ _ _ _ hl, List.length_set]
    · rw [List.set_eq_of_length_le (Nat.le_of_not_lt hl)]
  · rw [getD_set_ne _ _ _ h]

/-- Entries other than the one written are unchanged by `setEntry`. -/
lemma getEntry_setEntry_ne (M : List (List Int)) (i j : Nat) (x : Int)
    (u v : Nat) (h : ¬(i = u ∧ j = v)) :
    getEntry (setEntry M i j x) u v = getEntry M u v := by
  unfold getEntry setEntry
  rcases eq_or_ne i u with rfl | hiu
  · have hvj : j ≠ v := fun hv => h ⟨rfl, hv⟩
    by_cases hl : i < M.length
    · rw [getD_set_self _ _ _ _ hl, getD_set_ne _ _ _ hvj]
    · rw [List.set_eq_of_length_le (Nat.le_of_not_lt hl)]
  · rw [getD_set_ne _ _ _ hiu]

/-- The written entry of `setEntry`, for in-range indices. -/
lemma getEntry_setEntry_self (M : List (List Int)) (i j : Nat) (x : Int)
    (hi : i < M.length) (hj : j < (M.getD i []).length) :
    getEntry (setEntry M i j x) i j = x := by
  unfold getEntry setEntry
  rw [getD_set_self _ _ _ _ hi, getD_set_self _ _ _ _ hj]

/-- Total amount the consumption loop subtracts from the arc `(u, v)`. -/
def arcSum (l : List ((Nat × Nat) × Int)) (u v : Nat) : Int :=
  ((l.filter fun e => decide (e.1 = (u, v))).map fun e => e.2).sum

lemma arcSum_nil (u v : Nat) : arcSum [] u v = 0 := rfl

lemma arcSum_cons (a c : Nat) (b : Int) (t : List ((Nat × Nat) × Int))
    (u v : Nat) :
    arcSum (((a, c), b) :: t) u v =
      (if (a, c) = (u, v) then b else 0) + arcSum t u v := by
  unfold arcSum
  rw [List.filter_cons]
  split
  · rename_i h
    rw [if_pos (by simpa using h)]
    simp
  · rename_i h
    rw [if_neg (by simpa using h)]
    simp

/-- The consumption loop preserves the number of rows. -/
lemma length_consumeArcs : ∀ (l : List ((Nat × Nat) × Int)) (M : List (List Int)),
    (consumeArcs M l).length = M.length
  | [], _ => rfl
  | ((a, c), b) :: t, M => by
      rw [consumeArcs, length_consumeArcs t, length_setEntry]

/-- The consumption loop preserves the length of every row. -/
lemma rowLen_consumeArcs : ∀ (l : List ((Nat × Nat) × Int)) (M : List (List Int))
    (u : Nat), ((consumeArcs M l).getD u []).length = (M.getD u []).length
  | [], _, _ => rfl
  | ((a, c), b) :: t, M, u => by
      rw [consumeArcs, rowLen_consumeArcs t, rowLen_setEntry]

/-- Pointwise effect of the consumption loop: every entry drops by the total
requirement charged to that arc, provided every arc in the list is in
range. -/
lemma getEntry_consumeArcs : ∀ (l : List ((Nat × Nat) × Int)) (M : List (List Int)),
    (∀ e ∈ l, e.1.1 < M.length ∧ e.1.2 < (M.getD e.1.1 []).length) →
    ∀ u v, getEntry (consumeArcs M l) u v = getEntry M u v - arcSum l u v
  | [], M, _, u, v => by rw [consumeArcs, arcSum_nil, sub_zero]
  | ((a, c), b) :: t, M, hl, u, v => by
      have hhead := hl ((a, c), b) (List.mem_cons_self _ _)
      have htail : ∀ e ∈ t,
          e.1.1 < (setEntry M a c (getEntry M a c - b)).length ∧
          e.1.2 < ((setEntry M a c (getEntry M a c - b)).getD e.1.1 []).length := by
        intro e he
        rw [length_setEntry, rowLen_setEntry]
        exact hl e (List.mem_cons_of_mem _ he)
      rw [consumeArcs, getEntry_consumeArcs t _ htail, arcSum_cons]
      by_cases h : (a, c) = (u, v)
      · obtain ⟨rfl, rfl⟩ := Prod.mk.injEq .. ▸ h
        rw [if_pos rfl,
          getEntry_setEntry_self M a c _ hhead.1 hhead.2]
        ring
      · rw [if_neg h, getEntry_setEntry_ne M a c _ u v
          (by simpa [Prod.ext_iff] using h)]
        ring

/-- An arc that is charged nowhere in the list keeps its entry. -/
lemma arcSum_eq_zero_of_not_mem (l : List ((Nat × Nat) × Int)) (u v : Nat)
    (h : (u, v) ∉ l.map fun e => e.1) : arcSum l u v = 0 := by
  unfold arcSum
  have : l.filter (fun e => decide (e.1 = (u, v))) = [] := by
    rw [List.filter_eq_nil_iff]
    intro e he
    simp only [decide_eq_true_eq]
    intro hev
    exact h (List.mem_map.mpr ⟨e, he, hev⟩)
  rw [this]
  rfl

/-- When the arcs of the list are pairwise distinct, the arc `(u, v)` is
charged exactly its own listed requirement. -/
lemma arcSum_eq_of_nodup : ∀ (l : List ((Nat × Nat) × Int)),
    ((l.map fun e => e.1).Nodup) → ∀ {u v : Nat} {b : Int},
    ((u, v), b) ∈ l → arcSum l u v = b
  | [], _, _, _, _, hmem => absurd hmem (List.not_mem_nil _)
  | ((a, c), b') :: t, hnd, u, v, b, hmem => by
      rw [List.map_cons, List.nodup_cons] at hnd
      rw [arcSum_cons]
      rcases List.mem_cons.mp hmem with heq | hmem'
      · obtain ⟨h1, h2⟩ := Prod.mk.injEq .. ▸ heq
        rw [if_pos h1.symm]
        have : (u, v) ∉ t.map fun e => e.1 := by rw [h1]; exact hnd.1
        rw [arcSum_eq_zero_of_not_mem t u v this, h2]
        ring
      · have hne : (a, c) ≠ (u, v) := fun h => by
          exact hnd.1 (h ▸ List.mem_map.mpr ⟨((u, v), b), hmem', h.symm ▸ rfl⟩)
        rw [if_neg hne, arcSum_eq_of_nodup t hnd.2 hmem', zero_add]

/-- Either an arc is charged nothing, or (for pairwise-distinct arcs) it is
charged exactly its listed requirement. -/
lemma arcSum_cases (l : List ((Nat × Nat) × Int))
    (hnd : (l.map fun e => e.1).Nodup) (u v : Nat) :
    arcSum l u v = 0 ∨ ∃ b, ((u, v), b) ∈ l ∧ arcSum l u v = b := by
  by_cases h : (u, v) ∈ l.map fun e => e.1
  · right
    obtain ⟨e, he, hfst⟩ := List.mem_map.mp h
    have hmem : ((u, v), e.2) ∈ l := by rw [← hfst]; exact he
    exact ⟨e.2, hmem, arcSum_eq_of_nodup l hnd hmem⟩
  · left
    exact arcSum_eq_zero_of_not_mem l u v h

/-- A bandwidth list of non-negative entries reads non-negative at every
index (out of range the default is `0`). -/
lemma bw_getD_nonneg (d : Demand) (hbw : ∀ b ∈ d.bandwidth, 0 ≤ b) (i : Nat) :
    0 ≤ d.bandwidth.getD i 0 := by
  by_cases h : i < d.bandwidth.length
  · rw [List.getD_eq_getElem _ _ h]
    exact hbw _ (List.getElem_mem h)
  · rw [List.getD_eq_default _ _ (Nat.le_of_not_lt h)]

/-- The consecutive arcs of a duplicate-free mapping with labels `≥ 1` are
pairwise distinct. -/
lemma demandArcs_fst_nodup (d : Demand) (m : List Nat)
    (hlen : m.length = d.path.length) (hnd : m.Nodup)
    (hlab : ∀ x ∈ m, 1 ≤ x) :
    ((demandArcs d m).map fun e => e.1).Nodup := by
  unfold demandArcs
  rw [List.map_map]
  refine List.Nodup.map_on ?_ (List.nodup_range _)
  intro i hi j hj hij
  rw [List.mem_range] at hi hj
  have hiL : i < m.length := by omega
  have hjL : j < m.length := by omega
  simp only [Function.comp, Prod.mk.injEq] at hij
  have h1 : m.getD i 0 - 1 = m.getD j 0 - 1 := hij.1
  rw [List.getD_eq_getElem m 0 hiL, List.getD_eq_getElem m 0 hjL] at h1
  have hge1i : 1 ≤ m[i] := (hlab _ (List.getElem_mem hiL))
  have hge1j : 1 ≤ m[j] := (hlab _ (List.getElem_mem hjL))
  have : m[i] = m[j] := by omega
  exact (hnd.getElem_inj_iff).mp this

/-- Under a square matrix and labels inside `1..N`, every consecutive arc of
the mapping addresses an in-range entry. -/
lemma demandArcs_in_range (d : Demand) (m : List Nat) (M : List (List Int))
    (hsq : ∀ u < M.length, (M.getD u []).length = M.length)
    (hlab : ∀ x ∈ m, 1 ≤ x ∧ x ≤ M.length)
    (hlen : m.length = d.path.length) :
    ∀ e ∈ demandArcs d m,
      e.1.1 < M.length ∧ e.1.2 < (M.getD e.1.1 []).length := by
  intro e he
  unfold demandArcs at he
  obtain ⟨i, hi, rfl⟩ := List.mem_map.mp he
  rw [List.mem_range] at hi
  have hiL : i < m.length := by omega
  have hi1L : i + 1 < m.length := by omega
  dsimp only
  rw [List.getD_eq_getElem m 0 hiL, List.getD_eq_getElem m 0 hi1L]
  have h1 := hlab _ (List.getElem_mem hiL)
  have h2 := hlab _ (List.getElem_mem hi1L)
  have hu : m[i] - 1 < M.length := by omega
  refine ⟨hu, ?_⟩
  rw [hsq _ hu]
  omega

/-- C7: the allocator re-verifies every consecutive arc against the current
residual capacities; if any arc falls short the call fails with the state
untouched, and if all arcs pass it decrements each consecutive arc by exactly
its declared requirement, leaves every other entry and every other field
unchanged, and records `allocations[demand.id] = mapping`. -/
theorem c7_allocator (p : Processor) (d : Demand) (mapping : List Nat)
    (hlen : mapping.length = d.path.length) (hnd : mapping.Nodup)
    (hlab : ∀ x ∈ mapping, 1 ≤ x ∧ x ≤ p.substrate_network.length)
    (hsq : ∀ u < p.substrate_network.length,
      (p.substrate_network.getD u []).length = p.substrate_network.length) :
    ((∃ i < d.path.length - 1,
        getEntry p.substrate_network
            (mapping.getD i 0 - 1) (mapping.getD (i + 1) 0 - 1) <
          d.bandwidth.getD i 0) →
      allocate_demand p d mapping = (p, false)) ∧
    ((∀ i < d.path.length - 1,
        d.bandwidth.getD i 0 ≤
          getEntry p.substrate_network
            (mapping.getD i 0 - 1) (mapping.getD (i + 1) 0 - 1)) →
      (allocate_demand p d mapping).2 = true ∧
      (allocate_demand p d mapping).1.allocations =
        dictInsert d.id mapping p.allocations ∧
      (allocate_demand p d mapping).1.original_substrate = p.original_substrate ∧
      (allocate_demand p d mapping).1.demands = p.demands ∧
      (allocate_demand p d mapping).1.accepted_demands = p.accepted_demands ∧
      (allocate_demand p d mapping).1.rejected_demands = p.rejected_demands ∧
      (∀ i < d.path.length - 1,
        getEntry (allocate_demand p d mapping).1.substrate_network
            (mapping.getD i 0 - 1) (mapping.getD (i + 1) 0 - 1) =
          getEntry p.substrate_network
              (mapping.getD i 0 - 1) (mapping.getD (i + 1) 0 - 1) -
            d.bandwidth.getD i 0) ∧
      (∀ u v, (∀ i < d.path.length - 1,
          ¬(mapping.getD i 0 - 1 = u ∧ mapping.getD (i + 1) 0 - 1 = v)) →
        getEntry (allocate_demand p d mapping).1.substrate_network u v =
          getEntry p.substrate_network u v)) := by
  constructor
  · intro ⟨i, hi, hlt⟩
    have hv : validMapping p.substrate_network d mapping = false := by
      rw [Bool.eq_false_iff]
      intro hv
      exact absurd ((validMapping_iff _ _ _).mp hv i hi) (not_le.mpr hlt)
    unfold allocate_demand
    rw [hv]
    rfl
  · intro hall
    have hv : validMapping p.substrate_network d mapping = true :=
      (validMapping_iff _ _ _).mpr hall
    have hfst : (allocate_demand p d mapping).1 =
        { p with
            substrate_network :=
              consumeArcs p.substrate_network (demandArcs d mapping),
            allocations := dictInsert d.id mapping p.allocations } := by
      unfold allocate_demand
      rw [hv]
      rfl
    have hsnd : (allocate_demand p d mapping).2 = true := by
      unfold allocate_demand
      rw [hv]
      rfl
    have hrange := demandArcs_in_range d mapping p.substrate_network hsq hlab hlen
    have harcnd := demandArcs_fst_nodup d mapping hlen hnd
      (fun x hx => (hlab x hx).1)
    refine ⟨hsnd, by rw [hfst], by rw [hfst], by rw [hfst], by rw [hfst],
      by rw [hfst], ?_, ?_⟩
    · intro i hi
      rw [hfst]
      have hmem : ((mapping.getD i 0 - 1, mapping.getD (i + 1) 0 - 1),
          d.bandwidth.getD i 0) ∈ demandArcs d mapping := by
        unfold demandArcs
        exact List.mem_map.mpr ⟨i, List.mem_range.mpr hi, rfl⟩
      rw [getEntry_consumeArcs _ _ hrange,
        arcSum_eq_of_nodup _ harcnd hmem]
    · intro u v hnone
      rw [hfst]
      have hnm : (u, v) ∉ (demandArcs d mapping).map fun e => e.1 := by
        intro hmem
        obtain ⟨e, he, hfst'⟩ := List.mem_map.mp hmem
        unfold demandArcs at he
        obtain ⟨i, hi, rfl⟩ := List.mem_map.mp he
        rw [List.mem_range] at hi
        exact hnone i hi (by
          have := hfst'
          simp only [Prod.mk.injEq] at this
          exact this)
      rw [getEntry_consumeArcs _ _ hrange,
        arcSum_eq_zero_of_not_mem _ _ _ hnm, sub_zero]

/-- C7 witness: the allocator contract instantiated on the concrete example
(substrate set, demand B, mapping `[1,2,3,5]`), all hypotheses discharged by
evaluation. -/
theorem c7_allocator_witness :
    ([1, 2, 3, 5].length = demandB.path.length ∧ [1, 2, 3, 5].Nodup ∧
     (∀ x ∈ [1, 2, 3, 5], 1 ≤ x ∧ x ≤ exampleProcessor.substrate_network.length) ∧
     (∀ u < exampleProcessor.substrate_network.length,
        (exampleProcessor.substrate_network.getD u []).length =
          exampleProcessor.substrate_network.length)) ∧
    ((∀ i < demandB.path.length - 1,
        demandB.bandwidth.getD i 0 ≤
          getEntry exampleProcessor.substrate_network
            ([1, 2, 3, 5].getD i 0 - 1) ([1, 2, 3, 5].getD (i + 1) 0 - 1)) →
      (allocate_demand exampleProcessor demandB [1, 2, 3, 5]).2 = true ∧
      (allocate_demand exampleProcessor demandB [1, 2, 3, 5]).1.allocations =
        dictInsert demandB.id [1, 2, 3, 5] exampleProcessor.allocations ∧
      (allocate_demand exampleProcessor demandB [1, 2, 3, 5]).1.original_substrate =
        exampleProcessor.original_substrate ∧
      (allocate_demand exampleProcessor demandB [1, 2, 3, 5]).1.demands =
        exampleProcessor.demands ∧
      (allocate_demand exampleProcessor demandB [1, 2, 3, 5]).1.accepted_demands =
        exampleProcessor.accepted_demands ∧
      (allocate_demand exampleProcessor demandB [1, 2, 3, 5]).1.rejected_demands =
        exampleProcessor.rejected_demands ∧
      (∀ i < demandB.path.length - 1,
        getEntry (allocate_demand exampleProcessor demandB [1, 2, 3, 5]).1.substrate_network
            ([1, 2, 3, 5].getD i 0 - 1) ([1, 2, 3, 5].getD (i + 1) 0 - 1) =
          getEntry exampleProcessor.substrate_network
              ([1, 2, 3, 5].getD i 0 - 1) ([1, 2, 3, 5].getD (i + 1) 0 - 1) -
            demandB.bandwidth.getD i 0) ∧
      (∀ u v, (∀ i < demandB.path.length - 1,
          ¬([1, 2, 3, 5].getD i 0 - 1 = u ∧ [1, 2, 3, 5].getD (i + 1) 0 - 1 = v)) →
        getEntry (allocate_demand exampleProcessor demandB [1, 2, 3, 5]).1.substrate_network u v =
          getEntry exampleProcessor.substrate_network u v)) :=
  ⟨⟨by decide, by decide, by decide, by decide⟩,
   (c7_allocator exampleProcessor demandB [1, 2, 3, 5] (by decide) (by decide)
      (by decide) (by decide)).2⟩

/-! ## C4: the residual-capacity invariant -/

/-- The substrate-state invariant: residual and baseline matrices are square
of the same size, and entrywise `0 ≤ residual ≤ original`. -/
def Invariant (p : Processor) : Prop :=
  p.substrate_network.length = p.original_substrate.length ∧
  (∀ u < p.original_substrate.length,
     (p.substrate_network.getD u []).length = p.original_substrate.length) ∧
  (∀ u < p.original_substrate.length,
     (p.original_substrate.getD u []).length = p.original_substrate.length) ∧
  ∀ i < p.original_substrate.length, ∀ j < p.original_substrate.length,
    0 ≤ getEntry p.substrate_network i j ∧
      getEntry p.substrate_network i j ≤ getEntry p.original_substrate i j

instance (p : Processor) : Decidable (Invariant p) := by
  unfold Invariant
  infer_instance

/-- Processing one demand with non-negative bandwidth requirements preserves
the residual-capacity invariant. -/
lemma invariant_processDemand (p : Processor) (d : Demand)
    (hbw : ∀ b ∈ d.bandwidth, 0 ≤ b) (hInv : Invariant p) :
    Invariant (processDemand p d) := by
  obtain ⟨hL, hrowS, hrowO, hent⟩ := hInv
  unfold processDemand
  rcases h : find_all_possible_allocations p d with _ | ⟨m, rest⟩
  · exact ⟨hL, hrowS, hrowO, hent⟩
  · have hm : m ∈ find_all_possible_allocations p d :=
      h ▸ List.mem_cons_self m rest
    unfold find_all_possible_allocations at hm
    rw [List.mem_filter,
      mem_kperms _ _ (List.nodup_range' _ _ _) m] at hm
    obtain ⟨⟨hmlen, hmnd, hmsub⟩, hvalid⟩ := hm
    have hlab : ∀ x ∈ m, 1 ≤ x ∧ x ≤ p.substrate_network.length := by
      intro x hx
      have := List.mem_range'_1.mp (hmsub x hx)
      omega
    have hsq : ∀ u < p.substrate_network.length,
        (p.substrate_network.getD u []).length = p.substrate_network.length := by
      intro u hu
      rw [hL] at hu ⊢
      exact hrowS u hu
    have hrange := demandArcs_in_range d m p.substrate_network hsq hlab hmlen
    have harcnd := demandArcs_fst_nodup d m hmlen hmnd
      (fun x hx => (hlab x hx).1)
    simp only [allocate_demand, hvalid, if_true]
    refine ⟨?_, ?_, hrowO, ?_⟩
    · rw [length_consumeArcs]
      exact hL
    · intro u hu
      rw [rowLen_consumeArcs]
      exact hrowS u hu
    · dsimp only
      intro i hi j hj
      rw [getEntry_consumeArcs _ _ hrange]
      rcases arcSum_cases (demandArcs d m) harcnd i j with hz | ⟨b, hmem, hb⟩
      · rw [hz, sub_zero]
        exact hent i hi j hj
      · rw [hb]
        unfold demandArcs at hmem
        obtain ⟨t, ht, he⟩ := List.mem_map.mp hmem
        rw [List.mem_range] at ht
        have hbpos : 0 ≤ b := by
          have : b = d.bandwidth.getD t 0 := (congrArg (fun e => e.2) he).symm
          rw [this]
          exact bw_getD_nonneg d hbw t
        have hble : b ≤ getEntry p.substrate_network i j := by
          have h1 : m.getD t 0 - 1 = i :=
            congrArg (fun e => e.1.1) he
          have h2 : m.getD (t + 1) 0 - 1 = j :=
            congrArg (fun e => e.1.2) he
          have h3 : d.bandwidth.getD t 0 = b :=
            congrArg (fun e => e.2) he
          have := (validMapping_iff _ _ _).mp hvalid t ht
          rw [h1, h2, h3] at this
          exact this
        have := hent i hi j hj
        constructor
        · omega
        · omega

/-- Folding the per-demand step over a batch of demands with non-negative
requirements preserves the invariant. -/
lemma invariant_foldl : ∀ (l : List Demand) (p : Processor),
    (∀ d ∈ l, ∀ b ∈ d.bandwidth, 0 ≤ b) → Invariant p →
    Invariant (l.foldl processDemand p)
  | [], _, _, hInv => hInv
  | d :: t, p, hbw, hInv => by
      rw [List.foldl_cons]
      exact invariant_foldl t (processDemand p d)
        (fun e he => hbw e (List.mem_cons_of_mem _ he))
        (invariant_processDemand p d (hbw d (List.mem_cons_self _ _)) hInv)

/-- C4 counterexample: the code accepts a demand with a negative bandwidth
requirement (nothing validates it), and committing it drives the residual arc
1→2 above its original capacity — the claimed invariant fails as stated. -/
theorem c4_counterexample :
    ¬ (getEntry (process_all_demands (add_demand
          (set_substrate_network Processor.init [[0, 5], [0, 0]])
          1 [1, 2] [-3])).1.substrate_network 0 1 ≤
       getEntry (process_all_demands (add_demand
          (set_substrate_network Processor.init [[0, 5], [0, 0]])
          1 [1, 2] [-3])).1.original_substrate 0 1) := by
  have hsort : sortDemands (add_demand
      (set_substrate_network Processor.init [[0, 5], [0, 0]])
      1 [1, 2] [-3]).demands = [⟨1, [1, 2], [-3]⟩] := by
    simp [sortDemands, add_demand, set_substrate_network, Processor.init,
      List.mergeSort]
  unfold process_all_demands
  rw [hsort]
  decide

/-- C4 (amended): provided the residual/baseline matrices are square of equal
size with `0 ≤ residual ≤ original` entrywise, and every stored demand has
non-negative bandwidth requirements, the invariant holds at every point of
execution: it is preserved by each per-demand step (including allocation
commits), by a full processing pass (which also leaves the baseline matrix
unchanged), by `reset`, and by `add_demand`. -/
theorem c4_residual_bounds (p : Processor) (hInv : Invariant p)
    (hbw : ∀ d ∈ p.demands, ∀ b ∈ d.bandwidth, 0 ≤ b) :
    Invariant (process_all_demands p).1 ∧
    (process_all_demands p).1.original_substrate = p.original_substrate ∧
    (∀ (q : Processor) (d : Demand), Invariant q →
      (∀ b ∈ d.bandwidth, 0 ≤ b) → Invariant (processDemand q d)) ∧
    (∀ q : Processor, Invariant q → Invariant (reset q)) ∧
    (∀ (q : Processor) (i : Nat) (path : List Nat) (bw : List Int),
      Invariant q → Invariant (add_demand q i path bw)) := by
  refine ⟨?_, ?_, ?_, ?_, ?_⟩
  · unfold process_all_demands
    refine invariant_foldl (sortDemands p.demands)
      { p with demands := sortDemands p.demands } ?_ hInv
    intro d hd
    rw [sortDemands, List.mem_mergeSort] at hd
    exact hbw d hd
  · unfold process_all_demands
    exact (foldl_processDemand_fields (sortDemands p.demands) _).2.1
  · exact fun q d h1 h2 => invariant_processDemand q d h2 h1
  · intro q hq
    obtain ⟨hL, hrowS, hrowO, hent⟩ := hq
    refine ⟨rfl, hrowO, hrowO, ?_⟩
    intro i hi j hj
    have h := hent i hi j hj
    exact ⟨le_trans h.1 h.2, le_refl _⟩
  · exact fun q i path bw hq => hq

/-- C4 witness: the amended invariant-preservation statement instantiated on
the concrete example state, hypotheses discharged by evaluation. -/
theorem c4_residual_bounds_witness :
    (Invariant exampleProcessor ∧
     ∀ d ∈ exampleProcessor.demands, ∀ b ∈ d.bandwidth, 0 ≤ b) ∧
    Invariant (process_all_demands exampleProcessor).1 :=
  ⟨⟨by decide, by decide⟩,
   (c4_residual_bounds exampleProcessor (by decide) (by decide)).1⟩

end VNAlloc
